import Mathlib

/-!
Verification of `src/context.c` from the libotr repository (the per-identity
session and trust store of the OTR library).

The C data structures are shallowly embedded:

* a `Fingerprint` entry carries its 20-byte value and an optional trust label;
  the per-context fingerprint chain is a `List Fingerprint` whose head is the
  node right after the permanent sentinel `fingerprint_root` (the sentinel
  itself holds no data and is represented by the list container);
* a `ConnContext` is a record of the fields of `struct context`; owned
  pointers that are either `NULL` or an opaque resource (`gcry_mpi_t` values,
  DH key pairs, session-key slots, the saved-MAC-key buffer, `app_data`)
  become `Option Unit` — `none` is `NULL`/blank, `some ()` is a live resource;
* the registry (`us->context_root` chain) is a `List ConnContext` in list
  order; the `tous` back-pointers exist only to make C unlinking O(1) and
  have no observable content of their own, so list insertion/removal models
  splicing exactly;
* pointers *into* a chain (`active_fingerprint`, the `Fingerprint *` argument
  of `otrl_context_forget_fingerprint`, the `ConnContext *` argument of
  `otrl_context_forget`) become positions (indices) in the corresponding
  list; inserting at the front of a chain shifts every existing node's index
  up by one, which is how the unmoved C pointers are tracked.
-/

/-- The three connection states, `CONN_UNCONNECTED`, `CONN_SETUP`,
`CONN_CONNECTED` of `context.h`. -/
inductive ConnState where
  | unconnected
  | setup
  | connected
deriving DecidableEq, Repr

/-- One fingerprint entry of a context's chain (a real entry, not the
sentinel): the 20 owned bytes and the optional trust label.  The
`context` back-pointer and the `next`/`tous` links of the C struct are
represented by the entry's position in the containing context's list. -/
structure Fingerprint where
  fingerprint : List Nat
  trust : Option String
deriving DecidableEq, Repr

/-- Embedding of `struct context` of `context.h`, with owned opaque resources as
`Option Unit` (`none` = `NULL`/blank).  `sesskeys` is the 2×2 matrix
`sesskeys[i][j]`, flattened into four fields.  `active_fingerprint` is a
non-owning pointer into the fingerprint chain, modelled as an index into
`fingerprints`.  `may_retransmit` is the C `int` used as a flag. -/
structure ConnContext where
  username : String
  accountname : String
  protocol : String
  state : ConnState
  fingerprints : List Fingerprint
  active_fingerprint : Option Nat
  their_keyid : Nat
  their_y : Option Unit
  their_old_y : Option Unit
  our_keyid : Nat
  our_dh_key : Option Unit
  our_old_dh_key : Option Unit
  sesskeys00 : Option Unit
  sesskeys01 : Option Unit
  sesskeys10 : Option Unit
  sesskeys11 : Option Unit
  sessionid : List Nat
  numsavedkeys : Nat
  preshared_secret : Option (List Nat)
  preshared_secret_len : Nat
  saved_mac_keys : Option Unit
  generation : Nat
  lastsent : Nat
  lastmessage : Option String
  may_retransmit : Bool
  otr_offer : Nat
  app_data : Option Unit
  app_data_free : Option Unit
deriving DecidableEq, Repr

/-- Model of `new_context` (context.c:35-78): a freshly allocated context with the
three identity strings copied in and every other field in its fully reset
`CONN_UNCONNECTED` state.  `OFFER_NOT` is the value `0` of the offer enum. -/
def new_context (user accountname protocol : String) : ConnContext :=
  { username := user
    accountname := accountname
    protocol := protocol
    state := .unconnected
    fingerprints := []
    active_fingerprint := none
    their_keyid := 0
    their_y := none
    their_old_y := none
    our_keyid := 0
    our_dh_key := none
    our_old_dh_key := none
    sesskeys00 := none
    sesskeys01 := none
    sesskeys10 := none
    sesskeys11 := none
    sessionid := List.replicate 20 0
    numsavedkeys := 0
    preshared_secret := none
    preshared_secret_len := 0
    saved_mac_keys := none
    generation := 0
    lastsent := 0
    lastmessage := none
    may_retransmit := false
    otr_offer := 0
    app_data := none
    app_data_free := none }

/-- C `strcmp` on the embedded strings: three-way comparison in
lexicographic order. -/
def strcmp (s t : String) : Ordering :=
  if s < t then .lt else if s = t then .eq else .gt

/-- The comparison performed by the scan loop of `otrl_context_find`
(context.c:94-103): `strcmp` on `username`, then `accountname`, then
`protocol`.  The loop breaks exactly when this is not `.lt`, and the
context is the one looked for exactly when this is `.eq`. -/
def tripleCmp (c : ConnContext) (user accountname protocol : String) : Ordering :=
  (strcmp c.username user).then
    ((strcmp c.accountname accountname).then (strcmp c.protocol protocol))

/-- The `add_app_data(data, context)` callback of `otrl_context_find`: per
its documented contract (context.c:80-84) it fills in `app_data` and
`app_data_free` on the newly created context; both are opaque here. -/
def applyAppData (add_app_data : Option (Option Unit × Option Unit))
    (c : ConnContext) : ConnContext :=
  match add_app_data with
  | none => c
  | some (d, df) => { c with app_data := d, app_data_free := df }

/-- The scan-and-splice loop of `otrl_context_find` (context.c:94-123),
once the three identity strings are known present.  Walks the sorted
chain; `.lt` means keep scanning, `.eq` means found (return the existing
node, no mutation, `*addedp` stays 0), otherwise the scan has gone past
the sorted position: if `add_if_missing`, splice a fresh context in right
here (setting `*addedp` to 1 and invoking the app-data callback on it),
else return `NULL`.  Result: (new registry, returned context, `*addedp`). -/
def findLoop (user accountname protocol : String) (add_if_missing : Bool)
    (add_app_data : Option (Option Unit × Option Unit)) :
    List ConnContext → List ConnContext × Option ConnContext × Bool
  | [] =>
      if add_if_missing then
        let n := applyAppData add_app_data (new_context user accountname protocol)
        ([n], some n, true)
      else ([], none, false)
  | c :: rest =>
      match tripleCmp c user accountname protocol with
      | .lt =>
          let r := findLoop user accountname protocol add_if_missing add_app_data rest
          (c :: r.1, r.2.1, r.2.2)
      | .eq => (c :: rest, some c, false)
      | .gt =>
          if add_if_missing then
            let n := applyAppData add_app_data (new_context user accountname protocol)
            (n :: c :: rest, some n, true)
          else (c :: rest, none, false)

/-- Model of `otrl_context_find` (context.c:85-124).  The registry (the
`us->context_root` chain) is the list; the three identity strings are
`Option String` because the C checks them against `NULL` (context.c:93)
and returns `NULL` with no mutation when any is absent.  Returns the
updated registry, the returned `ConnContext *` and the value stored in
`*addedp` (0 at entry, 1 exactly when a context was created). -/
def otrl_context_find (us : List ConnContext)
    (user accountname protocol : Option String) (add_if_missing : Bool)
    (add_app_data : Option (Option Unit × Option Unit)) :
    List ConnContext × Option ConnContext × Bool :=
  match user, accountname, protocol with
  | some u, some a, some p => findLoop u a p add_if_missing add_app_data us
  | _, _, _ => (us, none, false)

/-- Model of `otrl_context_find_fingerprint` (context.c:128-156).  Scans the real
entries of the context's chain (`context->fingerprint_root.next` onward)
for a `memcmp`-exact match of the 20 bytes; on a miss with
`add_if_missing` set, a fresh entry with `trust = NULL` is pushed at the
front of the chain (context.c:147-152), which shifts the index every C
pointer into the old chain designates — in particular
`active_fingerprint`, which the C code does not touch.  Returns the
updated context, the returned `Fingerprint *` and the value of `*addedp`. -/
def otrl_context_find_fingerprint (context : ConnContext)
    (fingerprint : List Nat) (add_if_missing : Bool) :
    ConnContext × Option Fingerprint × Bool :=
  match context.fingerprints.find? (fun f => f.fingerprint = fingerprint) with
  | some f => (context, some f, false)
  | none =>
      if add_if_missing then
        let f : Fingerprint := { fingerprint := fingerprint, trust := none }
        ({ context with
            fingerprints := f :: context.fingerprints
            active_fingerprint := context.active_fingerprint.map (· + 1) },
          some f, true)
      else (context, none, false)

/-- Model of `otrl_context_set_trust` (context.c:159-165): no-op on a `NULL` entry,
otherwise frees the old label and installs a copy of the new one (`NULL`
clears it). -/
def otrl_context_set_trust (fprint : Option Fingerprint)
    (trust : Option String) : Option Fingerprint :=
  match fprint with
  | none => none
  | some f => some { f with trust := trust }

/-- Model of `otrl_context_set_preshared_secret` (context.c:170-184): frees the old
secret and resets the length to 0 first; then, when `secret_len` is
nonzero, tries to allocate the new buffer — `allocOk` is whether that
`malloc` succeeds (the C checks its result here instead of asserting) —
and only on success copies the bytes and sets the length. -/
def otrl_context_set_preshared_secret (context : ConnContext)
    (secret : List Nat) (secret_len : Nat) (allocOk : Bool) : ConnContext :=
  let c := { context with
              preshared_secret := (none : Option (List Nat))
              preshared_secret_len := 0 }
  if secret_len ≠ 0 then
    if allocOk then
      { c with preshared_secret := some (secret.take secret_len)
               preshared_secret_len := secret_len }
    else c
  else c

/-- Model of `otrl_context_force_setup` (context.c:188-211): unconditionally moves
the context to `CONN_SETUP`, clears `active_fingerprint` and
`their_keyid`, releases `their_y`, `their_old_y`, all four session-key
slots, the preshared secret, the saved MAC keys and the last message,
zeroes the session id and the retransmit flag.  `our_dh_key`,
`our_old_dh_key`, `our_keyid` and the identity strings are not touched. -/
def otrl_context_force_setup (context : ConnContext) : ConnContext :=
  { context with
      state := .setup
      active_fingerprint := none
      their_keyid := 0
      their_y := none
      their_old_y := none
      sesskeys00 := none
      sesskeys01 := none
      sesskeys10 := none
      sesskeys11 := none
      sessionid := List.replicate 20 0
      preshared_secret := none
      preshared_secret_len := 0
      numsavedkeys := 0
      saved_mac_keys := none
      lastmessage := none
      may_retransmit := false }

/-- Model of `otrl_context_force_disconnect` (context.c:214-224): performs
`otrl_context_force_setup` first, then moves to `CONN_UNCONNECTED`,
resets `our_keyid` and frees both of our DH key pairs. -/
def otrl_context_force_disconnect (context : ConnContext) : ConnContext :=
  let c := otrl_context_force_setup context
  { c with
      state := .unconnected
      our_keyid := 0
      our_dh_key := none
      our_old_dh_key := none }

/-- Model of `otrl_context_forget` (context.c:261-294), seen at registry level: the
context is designated by its position `i` in the registry chain.  If its
state is not `CONN_UNCONNECTED` the call returns at once (context.c:263)
and nothing changes.  Otherwise the context is destroyed: the defensive
`force_disconnect`, the drain of its fingerprint chain, the release of
its strings and app data all act on memory that is freed before the call
returns, so the observable effect is that the node is unlinked from the
registry (context.c:288-291) — list removal at `i`. -/
def otrl_context_forget (us : List ConnContext) (i : Nat) : List ConnContext :=
  match us[i]? with
  | none => us
  | some c =>
      if c.state ≠ ConnState.unconnected then us
      else us.eraseIdx i

/-- A `Fingerprint *` argument of `otrl_context_forget_fingerprint`: either
the context's sentinel `fingerprint_root`, or the real entry at position
`i` of its chain. -/
inductive FpRef where
  | root
  | entry (i : Nat)
deriving DecidableEq, Repr

/-- Removing the real entry at position `i` leaves any C pointer to a
*later* entry designating position `i - 1`.  The C code never adjusts
`active_fingerprint` on removal: when it pointed at the removed entry
itself it is left dangling (the removal branch is only reachable then
with the context not `CONN_CONNECTED`, where `active_fingerprint` must be
treated as absent, context.h), modelled as `none`. -/
def adjustActive (act : Option Nat) (i : Nat) : Option Nat :=
  match act with
  | none => none
  | some j => if i < j then some (j - 1) else if j = i then none else some j

/-- Model of `otrl_context_forget_fingerprint` (context.c:231-258), at registry
level: `ci` is the position of the owning context (the `fprint->context`
back-pointer), `r` designates the entry.  On the sentinel: destroy the
whole context when it is `CONN_UNCONNECTED` and `and_maybe_context` is
set, else no-op.  On a real entry: refuse when the context is
`CONN_CONNECTED` and the entry is its `active_fingerprint`; otherwise
free and unlink the entry, and if the context is now a fingerprint-less
`CONN_UNCONNECTED` one and `and_maybe_context` is set, cascade into
`otrl_context_forget`. -/
def otrl_context_forget_fingerprint (us : List ConnContext) (ci : Nat)
    (r : FpRef) (and_maybe_context : Bool) : List ConnContext :=
  match us[ci]? with
  | none => us
  | some c =>
      match r with
      | .root =>
          if c.state = ConnState.unconnected ∧ and_maybe_context then
            otrl_context_forget us ci
          else us
      | .entry i =>
          match c.fingerprints[i]? with
          | none => us
          | some _ =>
              if c.state ≠ ConnState.connected ∨ c.active_fingerprint ≠ some i then
                let c' := { c with
                             fingerprints := c.fingerprints.eraseIdx i
                             active_fingerprint := adjustActive c.active_fingerprint i }
                let us' := us.set ci c'
                if c'.state = ConnState.unconnected ∧ c'.fingerprints = [] ∧
                    and_maybe_context then
                  otrl_context_forget us' ci
                else us'
              else us

/-- Model of `otrl_context_forget_all` (context.c:298-304): while the registry is
non-empty, force-disconnect the current head and forget it.  Each
iteration removes the head (after `force_disconnect` its state is
`CONN_UNCONNECTED`, so `otrl_context_forget` never refuses), which is the
termination measure of the C loop. -/
def otrl_context_forget_all : List ConnContext → List ConnContext
  | [] => []
  | c :: rest =>
      otrl_context_forget_all
        (otrl_context_forget (otrl_context_force_disconnect c :: rest) 0)
termination_by us => us.length
decreasing_by
  simp [otrl_context_forget, otrl_context_force_disconnect,
    otrl_context_force_setup]

/-- The identity triple of a context, in the order the scan loop of
`otrl_context_find` compares it: (username, accountname, protocol). -/
def key (c : ConnContext) : String × String × String :=
  (c.username, c.accountname, c.protocol)

/-- Strict lexicographic order on identity triples: the order the registry
chain is kept in. -/
def keyLt (x y : String × String × String) : Prop :=
  x.1 < y.1 ∨ (x.1 = y.1 ∧ (x.2.1 < y.2.1 ∨ (x.2.1 = y.2.1 ∧ x.2.2 < y.2.2)))

/-- The registry invariant: consecutive contexts of the chain are in
strictly increasing triple order. -/
def RegSorted (us : List ConnContext) : Prop :=
  us.Chain' (fun c d => keyLt (key c) (key d))

/-- One find-or-create call: the arguments of `otrl_context_find` with
`add_if_missing` set. -/
structure FindOp where
  user : Option String
  accountname : Option String
  protocol : Option String
  add_app_data : Option (Option Unit × Option Unit)

/-- Apply a sequence of find-or-create calls (each with `add_if_missing`
set) to a registry, keeping the updated registry each time. -/
def applyFinds : List FindOp → List ConnContext → List ConnContext
  | [], us => us
  | op :: ops, us =>
      applyFinds ops
        (otrl_context_find us op.user op.accountname op.protocol true
          op.add_app_data).1

/-- The preshared-secret consistency invariant: the buffer is absent
exactly when the recorded length is 0. -/
def psInv (c : ConnContext) : Prop :=
  c.preshared_secret = none ↔ c.preshared_secret_len = 0

/-- A concrete connected context holding one fingerprint entry, which is
its `active_fingerprint`; used to instantiate the theorems below. -/
def exConnected : ConnContext :=
  { new_context "alice" "me" "xmpp" with
      state := ConnState.connected
      active_fingerprint := some 0
      fingerprints := [{ fingerprint := List.replicate 20 7, trust := none }] }

/-! ## Helper lemmas -/

theorem strcmp_eq_iff {s t : String} : strcmp s t = .eq ↔ s = t := by
  unfold strcmp
  split
  · rename_i h
    exact iff_of_false (by simp) (fun he => absurd (he ▸ h) (lt_irrefl t))
  · split
    · rename_i he
      exact iff_of_true rfl he
    · rename_i he
      exact iff_of_false (by simp) he

theorem strcmp_lt_iff {s t : String} : strcmp s t = .lt ↔ s < t := by
  unfold strcmp
  split
  · rename_i h
    exact iff_of_true rfl h
  · rename_i h
    split
    · exact iff_of_false (by simp) h
    · exact iff_of_false (by simp) h

theorem strcmp_gt_iff {s t : String} : strcmp s t = .gt ↔ t < s := by
  unfold strcmp
  split
  · rename_i h
    exact iff_of_false (by simp) (fun h2 => absurd (lt_trans h h2) (lt_irrefl s))
  · rename_i h
    split
    · rename_i he
      subst he
      exact iff_of_false (by simp) (lt_irrefl s)
    · rename_i he
      refine iff_of_true rfl ?_
      rcases lt_trichotomy s t with h1 | h1 | h1
      · exact absurd h1 h
      · exact absurd h1 he
      · exact h1

theorem tripleCmp_eq_iff {c : ConnContext} {u a p : String} :
    tripleCmp c u a p = .eq ↔ key c = (u, a, p) := by
  simp [tripleCmp, key, Ordering.then_eq_eq, strcmp_eq_iff, Prod.ext_iff]

theorem tripleCmp_lt_iff {c : ConnContext} {u a p : String} :
    tripleCmp c u a p = .lt ↔ keyLt (key c) (u, a, p) := by
  simp [tripleCmp, key, keyLt, Ordering.then_eq_lt, Ordering.then_eq_eq,
    strcmp_lt_iff, strcmp_eq_iff]

theorem tripleCmp_gt_iff {c : ConnContext} {u a p : String} :
    tripleCmp c u a p = .gt ↔ keyLt (u, a, p) (key c) := by
  unfold tripleCmp key keyLt
  simp only [Ordering.then_eq_gt, Ordering.then_eq_eq, strcmp_gt_iff,
    strcmp_eq_iff]
  constructor
  · rintro (h | ⟨he, h | ⟨he2, h⟩⟩)
    · exact Or.inl h
    · exact Or.inr ⟨he.symm, Or.inl h⟩
    · exact Or.inr ⟨he.symm, Or.inr ⟨he2.symm, h⟩⟩
  · rintro (h | ⟨he, h | ⟨he2, h⟩⟩)
    · exact Or.inl h
    · exact Or.inr ⟨he.symm, Or.inl h⟩
    · exact Or.inr ⟨he.symm, Or.inr ⟨he2.symm, h⟩⟩

theorem keyLt_trans {x y z : String × String × String} :
    keyLt x y → keyLt y z → keyLt x z := by
  rcases x with ⟨x1, x2, x3⟩
  rcases y with ⟨y1, y2, y3⟩
  rcases z with ⟨z1, z2, z3⟩
  unfold keyLt
  rintro (h1 | ⟨rfl, h1 | ⟨rfl, h1⟩⟩) (h2 | ⟨rfl, h2 | ⟨rfl, h2⟩⟩)
  · exact Or.inl (lt_trans h1 h2)
  · exact Or.inl h1
  · exact Or.inl h1
  · exact Or.inl h2
  · exact Or.inr ⟨rfl, Or.inl (lt_trans h1 h2)⟩
  · exact Or.inr ⟨rfl, Or.inl h1⟩
  · exact Or.inl h2
  · exact Or.inr ⟨rfl, Or.inl h2⟩
  · exact Or.inr ⟨rfl, Or.inr ⟨rfl, lt_trans h1 h2⟩⟩

theorem keyLt_irrefl {x : String × String × String} : ¬ keyLt x x := by
  rcases x with ⟨x1, x2, x3⟩
  unfold keyLt
  rintro (h | ⟨-, h | ⟨-, h⟩⟩) <;> exact lt_irrefl _ h

theorem key_applyAppData (f : Option (Option Unit × Option Unit))
    (c : ConnContext) : key (applyAppData f c) = key c := by
  rcases f with - | ⟨d, df⟩ <;> rfl

theorem key_new_context (u a p : String) : key (new_context u a p) = (u, a, p) := rfl

/-- The scan-and-splice loop keeps the registry chain strictly sorted, and
the head of its result is either the old head or a context whose triple is
the one searched for. -/
theorem findLoop_sorted_aux (u a p : String) (add : Bool)
    (f : Option (Option Unit × Option Unit)) (l : List ConnContext)
    (hl : RegSorted l) :
    RegSorted (findLoop u a p add f l).1 ∧
      ∀ x, ((findLoop u a p add f l).1).head? = some x →
        l.head? = some x ∨ key x = (u, a, p) := by
  induction l with
  | nil =>
      unfold findLoop
      split
      · refine ⟨List.chain'_singleton _, ?_⟩
        intro x hx
        simp only [List.head?_cons, Option.some.injEq] at hx
        right
        rw [← hx, key_applyAppData, key_new_context]
      · exact ⟨List.chain'_nil, by simp⟩
  | cons c rest ih =>
      rw [RegSorted, List.chain'_cons'] at hl
      obtain ⟨hhead, hrest⟩ := hl
      cases hcmp : tripleCmp c u a p with
      | lt =>
          obtain ⟨hs, hh⟩ := ih hrest
          have hstep : RegSorted (c :: (findLoop u a p add f rest).1) := by
            rw [RegSorted, List.chain'_cons']
            refine ⟨?_, hs⟩
            intro y hy
            rcases hh y hy with h | h
            · exact hhead y h
            · rw [h]
              exact tripleCmp_lt_iff.mp hcmp
          constructor
          · simpa only [findLoop, hcmp] using hstep
          · intro x hx
            simp only [findLoop, hcmp, List.head?_cons, Option.some.injEq] at hx
            left
            simp [← hx]
      | eq =>
          constructor
          · simp only [findLoop, hcmp]
            rw [RegSorted, List.chain'_cons']
            exact ⟨hhead, hrest⟩
          · intro x hx
            simp only [findLoop, hcmp, List.head?_cons, Option.some.injEq] at hx
            left
            simp [← hx]
      | gt =>
          by_cases hadd : add = true
          · constructor
            · simp only [findLoop, hcmp, hadd, if_pos]
              rw [RegSorted, List.chain'_cons']
              refine ⟨?_, ?_⟩
              · intro y hy
                simp only [List.head?_cons, Option.mem_def,
                  Option.some.injEq] at hy
                rw [← hy, key_applyAppData, key_new_context]
                exact tripleCmp_gt_iff.mp hcmp
              · rw [RegSorted, List.chain'_cons'] at *
                exact ⟨hhead, hrest⟩
            · intro x hx
              simp only [findLoop, hcmp, hadd, if_pos, List.head?_cons,
                Option.some.injEq] at hx
              right
              rw [← hx, key_applyAppData, key_new_context]
          · rw [Bool.not_eq_true] at hadd
            constructor
            · simp only [findLoop, hcmp, hadd, Bool.false_eq_true, if_neg,
                not_false_iff]
              rw [RegSorted, List.chain'_cons']
              exact ⟨hhead, hrest⟩
            · intro x hx
              simp only [findLoop, hcmp, hadd, Bool.false_eq_true, if_false,
                List.head?_cons, Option.some.injEq] at hx
              left
              simp [← hx]

/-- The operation `otrl_context_find` preserves the registry sortedness invariant. -/
theorem find_preserves_sorted (us : List ConnContext)
    (user accountname protocol : Option String) (add_if_missing : Bool)
    (f : Option (Option Unit × Option Unit)) (hus : RegSorted us) :
    RegSorted (otrl_context_find us user accountname protocol add_if_missing
      f).1 := by
  unfold otrl_context_find
  rcases user with - | u
  · cases accountname <;> cases protocol <;> exact hus
  · rcases accountname with - | a
    · cases protocol <;> exact hus
    · rcases protocol with - | p
      · exact hus
      · exact (findLoop_sorted_aux u a p add_if_missing f us hus).1

theorem tripleCmp_new (u a p : String) (f : Option (Option Unit × Option Unit)) :
    tripleCmp (applyAppData f (new_context u a p)) u a p = .eq :=
  tripleCmp_eq_iff.mpr (by rw [key_applyAppData, key_new_context])

/-- Running the scan-and-splice loop a second time with the same triple,
right after a first run with `add_if_missing` set, finds the context the
first run returned: the registry is unchanged, the same context comes
back, and `*addedp` is 0. -/
theorem findLoop_again (u a p : String)
    (f g : Option (Option Unit × Option Unit)) (l : List ConnContext) :
    findLoop u a p true g (findLoop u a p true f l).1 =
      ((findLoop u a p true f l).1, (findLoop u a p true f l).2.1, false) := by
  induction l with
  | nil =>
      simp only [findLoop, if_pos, tripleCmp_new]
  | cons c rest ih =>
      cases hcmp : tripleCmp c u a p with
      | lt => simp only [findLoop, hcmp, ih]
      | eq => simp only [findLoop, hcmp]
      | gt => simp only [findLoop, hcmp, if_pos, tripleCmp_new]

/-! ## The claims -/

/-- C1: for every sequence of find-or-create operations
(`otrl_context_find` with `add_if_missing` set) starting from an empty
registry, the registry chain stays sorted lexicographically by
(username, accountname, protocol) and never holds two contexts with the
same triple. -/
theorem find_sequence_sorted_nodup (ops : List FindOp) :
    RegSorted (applyFinds ops []) ∧
      (applyFinds ops []).Pairwise (fun c d => key c ≠ key d) := by
  have hsorted : ∀ us, RegSorted us → RegSorted (applyFinds ops us) := by
    induction ops with
    | nil => exact fun us h => h
    | cons op ops ih =>
        intro us h
        exact ih _ (find_preserves_sorted us op.user op.accountname
          op.protocol true op.add_app_data h)
  have h0 : RegSorted (applyFinds ops []) := hsorted [] List.chain'_nil
  refine ⟨h0, ?_⟩
  haveI : IsTrans ConnContext (fun c d => keyLt (key c) (key d)) :=
    ⟨fun _ _ _ => keyLt_trans⟩
  have hp : (applyFinds ops []).Pairwise (fun c d => keyLt (key c) (key d)) :=
    List.chain'_iff_pairwise.mp h0
  exact hp.imp (fun h heq => absurd (heq ▸ h) keyLt_irrefl)

/-- C7: for every identity triple of non-empty strings, calling
`otrl_context_find` with `add_if_missing` set twice in succession on the
same registry returns the same context both times, and `*addedp` is set
on the first call only: the second call reports 0 (and leaves the
registry as the first call left it). -/
theorem find_twice_same_context (us : List ConnContext) (u a p : String)
    (f g : Option (Option Unit × Option Unit))
    (hu : u ≠ "") (ha : a ≠ "") (hp : p ≠ "") :
    otrl_context_find
        (otrl_context_find us (some u) (some a) (some p) true f).1
        (some u) (some a) (some p) true g =
      ((otrl_context_find us (some u) (some a) (some p) true f).1,
        (otrl_context_find us (some u) (some a) (some p) true f).2.1,
        false) := by
  unfold otrl_context_find
  exact findLoop_again u a p f g us

/-- Witness for C7 at a concrete registry and triple. -/
theorem find_twice_same_context_witness :
    otrl_context_find
        (otrl_context_find [] (some "alice") (some "me") (some "xmpp")
          true none).1
        (some "alice") (some "me") (some "xmpp") true none =
      ((otrl_context_find [] (some "alice") (some "me") (some "xmpp")
          true none).1,
        (otrl_context_find [] (some "alice") (some "me") (some "xmpp")
          true none).2.1,
        false) :=
  find_twice_same_context [] "alice" "me" "xmpp" none none
    (by decide) (by decide) (by decide)

/-- C9: an `otrl_context_find` call in which any of the three identity
strings is absent returns no result and performs no mutation: the
registry comes back unchanged, the returned context is `NULL` and
`*addedp` is 0. -/
theorem find_missing_field_noop (us : List ConnContext)
    (user accountname protocol : Option String) (add_if_missing : Bool)
    (f : Option (Option Unit × Option Unit))
    (h : user = none ∨ accountname = none ∨ protocol = none) :
    otrl_context_find us user accountname protocol add_if_missing f =
      (us, none, false) := by
  unfold otrl_context_find
  rcases user with - | u <;> rcases accountname with - | a <;>
    rcases protocol with - | p <;>
      first
        | rfl
        | (rcases h with h | h | h <;> simp at h)

/-- Witness for C9 on a concrete registry with the account name absent. -/
theorem find_missing_field_noop_witness :
    ((some "alice" : Option String) = none ∨ (none : Option String) = none ∨
        (some "xmpp" : Option String) = none) ∧
      otrl_context_find [exConnected] (some "alice") none (some "xmpp") true
          none =
        ([exConnected], none, false) :=
  ⟨Or.inr (Or.inl rfl),
    find_missing_field_noop [exConnected] (some "alice") none (some "xmpp")
      true none (Or.inr (Or.inl rfl))⟩

/-- C4: after `otrl_context_force_setup`, from any prior state: the state
is `CONN_SETUP`, `active_fingerprint` is absent, `their_keyid` is 0, both
remote public values are absent, all four session-key slots are absent,
the 20-byte session id is all zero, the preshared secret is absent with
length 0, the saved-MAC-key count is 0 and the buffer absent, the
last-sent message buffer is absent and the retransmit flag is clear;
while `our_dh_key`, `our_old_dh_key`, `our_keyid` and the three identity
strings are exactly as they were. -/
theorem force_setup_effects (c : ConnContext) :
    (otrl_context_force_setup c).state = ConnState.setup ∧
    (otrl_context_force_setup c).active_fingerprint = none ∧
    (otrl_context_force_setup c).their_keyid = 0 ∧
    (otrl_context_force_setup c).their_y = none ∧
    (otrl_context_force_setup c).their_old_y = none ∧
    (otrl_context_force_setup c).sesskeys00 = none ∧
    (otrl_context_force_setup c).sesskeys01 = none ∧
    (otrl_context_force_setup c).sesskeys10 = none ∧
    (otrl_context_force_setup c).sesskeys11 = none ∧
    (otrl_context_force_setup c).sessionid = List.replicate 20 0 ∧
    (otrl_context_force_setup c).preshared_secret = none ∧
    (otrl_context_force_setup c).preshared_secret_len = 0 ∧
    (otrl_context_force_setup c).numsavedkeys = 0 ∧
    (otrl_context_force_setup c).saved_mac_keys = none ∧
    (otrl_context_force_setup c).lastmessage = none ∧
    (otrl_context_force_setup c).may_retransmit = false ∧
    (otrl_context_force_setup c).our_dh_key = c.our_dh_key ∧
    (otrl_context_force_setup c).our_old_dh_key = c.our_old_dh_key ∧
    (otrl_context_force_setup c).our_keyid = c.our_keyid ∧
    (otrl_context_force_setup c).username = c.username ∧
    (otrl_context_force_setup c).accountname = c.accountname ∧
    (otrl_context_force_setup c).protocol = c.protocol :=
  ⟨rfl, rfl, rfl, rfl, rfl, rfl, rfl, rfl, rfl, rfl, rfl, rfl, rfl, rfl, rfl,
    rfl, rfl, rfl, rfl, rfl, rfl, rfl⟩

/-- C5: `otrl_context_force_setup` followed by
`otrl_context_force_disconnect` leaves the same context as
`otrl_context_force_disconnect` alone, and both operations are
idempotent. -/
theorem force_setup_disconnect_algebra (c : ConnContext) :
    otrl_context_force_disconnect (otrl_context_force_setup c) =
        otrl_context_force_disconnect c ∧
      otrl_context_force_setup (otrl_context_force_setup c) =
        otrl_context_force_setup c ∧
      otrl_context_force_disconnect (otrl_context_force_disconnect c) =
        otrl_context_force_disconnect c :=
  ⟨rfl, rfl, rfl⟩

/-- Draining the registry always ends with an empty chain: each iteration
of the `otrl_context_forget_all` loop removes the current head, whose
state `otrl_context_force_disconnect` has just made `CONN_UNCONNECTED`. -/
theorem forgetAll_eq_nil (us : List ConnContext) :
    otrl_context_forget_all us = [] := by
  induction us with
  | nil => rw [otrl_context_forget_all]
  | cons c rest ih =>
      rw [otrl_context_forget_all]
      have h : otrl_context_forget
          (otrl_context_force_disconnect c :: rest) 0 = rest := by
        simp [otrl_context_forget, otrl_context_force_disconnect,
          otrl_context_force_setup]
      rw [h]
      exact ih

/-- C6: `otrl_context_forget_all` on a registry holding finitely many
contexts in any mixture of states terminates (it is a total function of
the registry, defined by a strictly decreasing recursion mirroring the C
loop) and leaves the registry empty. -/
theorem forget_all_empties (us : List ConnContext) :
    otrl_context_forget_all us = [] :=
  forgetAll_eq_nil us

/-- C2: `otrl_context_forget_fingerprint` applied to the
`active_fingerprint` entry of a `CONN_CONNECTED` context refuses: the
registry — in particular that context's fingerprint chain, its order and
its labels — is unchanged and the entry is not removed, whatever the
cascade flag. -/
theorem forget_fingerprint_active_connected_noop (us : List ConnContext)
    (ci i : Nat) (c : ConnContext) (and_maybe_context : Bool)
    (hc : us[ci]? = some c) (hst : c.state = ConnState.connected)
    (hact : c.active_fingerprint = some i)
    (hi : i < c.fingerprints.length) :
    otrl_context_forget_fingerprint us ci (.entry i) and_maybe_context =
      us := by
  obtain ⟨f, hf⟩ : ∃ f, c.fingerprints[i]? = some f :=
    ⟨_, List.getElem?_eq_getElem hi⟩
  unfold otrl_context_forget_fingerprint
  rw [hc]
  simp only [hf]
  rw [if_neg]
  push_neg
  exact ⟨by simp [hst], by simp [hact]⟩

/-- Witness for C2: a connected context whose single fingerprint entry is
its active one. -/
theorem forget_fingerprint_active_connected_noop_witness :
    ([exConnected][0]? = some exConnected) ∧
      exConnected.state = ConnState.connected ∧
      exConnected.active_fingerprint = some 0 ∧
      0 < exConnected.fingerprints.length ∧
      otrl_context_forget_fingerprint [exConnected] 0 (.entry 0) true =
        [exConnected] :=
  ⟨rfl, rfl, rfl, by decide,
    forget_fingerprint_active_connected_noop [exConnected] 0 0 exConnected
      true rfl rfl rfl (by decide)⟩

/-- C3: `otrl_context_forget` on a context whose state is not
`CONN_UNCONNECTED` refuses and is a no-op — the registry, hence the
context and its fingerprint chain, is unchanged; when the state is
`CONN_UNCONNECTED` the context is destroyed and unlinked from the
registry. -/
theorem forget_not_unconnected_noop (us : List ConnContext) (i : Nat)
    (c : ConnContext) (hc : us[i]? = some c) :
    (c.state ≠ ConnState.unconnected → otrl_context_forget us i = us) ∧
      (c.state = ConnState.unconnected →
        otrl_context_forget us i = us.eraseIdx i) := by
  unfold otrl_context_forget
  rw [hc]
  refine ⟨fun h => ?_, fun h => ?_⟩
  · show (if c.state ≠ ConnState.unconnected then us else us.eraseIdx i) = us
    rw [if_pos h]
  · show (if c.state ≠ ConnState.unconnected then us else us.eraseIdx i) =
      us.eraseIdx i
    rw [if_neg (by simp [h])]

/-- Witness for C3 on a one-element registry holding a connected context. -/
theorem forget_not_unconnected_noop_witness :
    ([exConnected][0]? = some exConnected) ∧
      (exConnected.state ≠ ConnState.unconnected →
        otrl_context_forget [exConnected] 0 = [exConnected]) ∧
      (exConnected.state = ConnState.unconnected →
        otrl_context_forget [exConnected] 0 = [exConnected].eraseIdx 0) :=
  ⟨rfl,
    (forget_not_unconnected_noop [exConnected] 0 exConnected rfl).1,
    (forget_not_unconnected_noop [exConnected] 0 exConnected rfl).2⟩

/-- C8: `otrl_context_find_fingerprint` returns an existing entry exactly
when a real entry of the context's chain matches all 20 bytes (then
nothing is created and the context is unchanged); on a miss with creation
requested it pushes a fresh entry with no trust label at the front of the
chain and reports `*addedp = 1` (with creation not requested it returns
`NULL` and changes nothing); and repeating the call with the same bytes
returns that same entry with `*addedp = 0`, so creation is reported only
once. -/
theorem find_fingerprint_spec (c : ConnContext) (fp : List Nat) :
    ((∃ f ∈ c.fingerprints, f.fingerprint = fp) →
        ∀ add_if_missing : Bool,
          (otrl_context_find_fingerprint c fp add_if_missing).1 = c ∧
          (otrl_context_find_fingerprint c fp add_if_missing).2.2 = false ∧
          ∃ f, (otrl_context_find_fingerprint c fp add_if_missing).2.1 =
              some f ∧ f ∈ c.fingerprints ∧ f.fingerprint = fp) ∧
    ((¬ ∃ f ∈ c.fingerprints, f.fingerprint = fp) →
        otrl_context_find_fingerprint c fp false = (c, none, false) ∧
        otrl_context_find_fingerprint c fp true =
          ({ c with
              fingerprints :=
                { fingerprint := fp, trust := none } :: c.fingerprints
              active_fingerprint := c.active_fingerprint.map (· + 1) },
            some { fingerprint := fp, trust := none }, true)) ∧
    (otrl_context_find_fingerprint
        (otrl_context_find_fingerprint c fp true).1 fp true =
      ((otrl_context_find_fingerprint c fp true).1,
        (otrl_context_find_fingerprint c fp true).2.1, false)) := by
  refine ⟨?_, ?_, ?_⟩
  · intro hex add_if_missing
    have hsome : (c.fingerprints.find?
        (fun f => f.fingerprint = fp)).isSome = true := by
      rw [List.find?_isSome]
      obtain ⟨f, hf, he⟩ := hex
      exact ⟨f, hf, by simpa using he⟩
    obtain ⟨f, hf⟩ := Option.isSome_iff_exists.mp hsome
    refine ⟨by simp only [otrl_context_find_fingerprint, hf],
      by simp only [otrl_context_find_fingerprint, hf], f,
      by simp only [otrl_context_find_fingerprint, hf],
      List.mem_of_find?_eq_some hf, by simpa using List.find?_some hf⟩
  · intro hex
    have hnone : c.fingerprints.find? (fun f => f.fingerprint = fp) = none := by
      rw [List.find?_eq_none]
      intro x hx
      simp only [decide_eq_true_eq]
      exact fun he => hex ⟨x, hx, he⟩
    constructor <;>
      simp only [otrl_context_find_fingerprint, hnone] <;> rfl
  · cases hm : c.fingerprints.find? (fun f => f.fingerprint = fp) with
    | some f => simp only [otrl_context_find_fingerprint, hm]
    | none =>
        have hfind2 : ({ fingerprint := fp, trust := none } ::
            c.fingerprints).find? (fun f => f.fingerprint = fp) =
              some { fingerprint := fp, trust := none } :=
          List.find?_cons_of_pos _ (by simp)
        simp only [otrl_context_find_fingerprint, hm, if_pos, hfind2]

/-- Witness for C8: looking up the fingerprint `exConnected` already
holds returns that entry without creating, and looking up a fresh
fingerprint creates it at the front of the chain. -/
theorem find_fingerprint_spec_witness :
    (∃ f ∈ exConnected.fingerprints, f.fingerprint = List.replicate 20 7) ∧
      ((otrl_context_find_fingerprint exConnected
          (List.replicate 20 7) true).1 = exConnected ∧
        (otrl_context_find_fingerprint exConnected
          (List.replicate 20 7) true).2.2 = false ∧
        ∃ f, (otrl_context_find_fingerprint exConnected
            (List.replicate 20 7) true).2.1 = some f ∧
          f ∈ exConnected.fingerprints ∧
          f.fingerprint = List.replicate 20 7) :=
  ⟨by decide,
    (find_fingerprint_spec exConnected (List.replicate 20 7)).1
      (by decide) true⟩

theorem mem_of_getElemIdx {l : List ConnContext} {n : Nat} {c : ConnContext}
    (h : l[n]? = some c) : c ∈ l := by
  obtain ⟨hlt, rfl⟩ := List.getElem?_eq_some.mp h
  exact List.getElem_mem hlt

/-- Every context of a registry produced by the scan-and-splice loop was
already in the input registry or is the freshly created one. -/
theorem findLoop_mem {u a p : String} {add : Bool}
    {f : Option (Option Unit × Option Unit)} {l : List ConnContext}
    {x : ConnContext} (hx : x ∈ (findLoop u a p add f l).1) :
    x ∈ l ∨ x = applyAppData f (new_context u a p) := by
  induction l with
  | nil =>
      unfold findLoop at hx
      split at hx
      · simp only [List.mem_singleton] at hx
        exact Or.inr hx
      · simp at hx
  | cons c rest ih =>
      cases hcmp : tripleCmp c u a p with
      | lt =>
          simp only [findLoop, hcmp, List.mem_cons] at hx
          rcases hx with h1 | h1
          · exact Or.inl (by simp [h1])
          · rcases ih h1 with h2 | h2
            · exact Or.inl (List.mem_cons_of_mem c h2)
            · exact Or.inr h2
      | eq =>
          simp only [findLoop, hcmp] at hx
          exact Or.inl hx
      | gt =>
          simp only [findLoop, hcmp] at hx
          split at hx
          · simp only [List.mem_cons] at hx
            rcases hx with h1 | h1 | h1
            · exact Or.inr h1
            · exact Or.inl (by simp [h1])
            · exact Or.inl (List.mem_cons_of_mem c h1)
          · exact Or.inl hx

theorem psInv_applyAppData_new (f : Option (Option Unit × Option Unit))
    (u a p : String) : psInv (applyAppData f (new_context u a p)) := by
  rcases f with - | ⟨d, df⟩ <;> simp [psInv, applyAppData, new_context]

/-- The operation `otrl_context_forget` only ever removes a context from the registry. -/
theorem forget_mem {us : List ConnContext} {i : Nat} {x : ConnContext}
    (hx : x ∈ otrl_context_forget us i) : x ∈ us := by
  unfold otrl_context_forget at hx
  cases hc : us[i]? with
  | none => simp only [hc] at hx; exact hx
  | some c =>
      simp only [hc] at hx
      split at hx
      · exact hx
      · exact (List.eraseIdx_sublist us i).subset hx

/-- The operation `otrl_context_forget_fingerprint` preserves the preshared-secret
invariant of every context in the registry (it only ever edits a
context's fingerprint chain or removes a context). -/
theorem forget_fingerprint_psInv (us : List ConnContext) (ci : Nat)
    (r : FpRef) (b : Bool) (h : ∀ c ∈ us, psInv c) :
    ∀ x ∈ otrl_context_forget_fingerprint us ci r b, psInv x := by
  intro x hx
  cases r with
  | root =>
      unfold otrl_context_forget_fingerprint at hx
      cases hc : us[ci]? with
      | none => simp only [hc] at hx; exact h x hx
      | some c =>
          simp only [hc] at hx
          split at hx
          · exact h x (forget_mem hx)
          · exact h x hx
  | entry i =>
      unfold otrl_context_forget_fingerprint at hx
      cases hc : us[ci]? with
      | none => simp only [hc] at hx; exact h x hx
      | some c =>
          simp only [hc] at hx
          cases hfi : c.fingerprints[i]? with
          | none => simp only [hfi] at hx; exact h x hx
          | some f =>
              simp only [hfi] at hx
              split at hx
              · split at hx
                · rcases List.mem_or_eq_of_mem_set (forget_mem hx) with
                    h1 | h1
                  · exact h x h1
                  · subst h1
                    exact h c (mem_of_getElemIdx hc)
                · rcases List.mem_or_eq_of_mem_set hx with h1 | h1
                  · exact h x h1
                  · subst h1
                    exact h c (mem_of_getElemIdx hc)
              · exact h x hx

/-- C10: every operation preserves the invariant that the
`preshared_secret` buffer is absent exactly when `preshared_secret_len`
is 0; `otrl_context_set_preshared_secret` always releases the previous
secret first, so on allocation failure for the new buffer the context is
left with the secret cleared (absent, length 0) rather than retaining
the old secret or an inconsistent length. -/
theorem preshared_secret_invariant :
    (∀ u a p, psInv (new_context u a p)) ∧
    (∀ c s n ok, psInv (otrl_context_set_preshared_secret c s n ok)) ∧
    (∀ c s n,
      (otrl_context_set_preshared_secret c s n false).preshared_secret =
          none ∧
        (otrl_context_set_preshared_secret c s n
          false).preshared_secret_len = 0) ∧
    (∀ c, psInv (otrl_context_force_setup c)) ∧
    (∀ c, psInv (otrl_context_force_disconnect c)) ∧
    (∀ c fpb add, psInv c →
      psInv (otrl_context_find_fingerprint c fpb add).1) ∧
    (∀ us user acct proto add f, (∀ c ∈ us, psInv c) →
      ∀ x ∈ (otrl_context_find us user acct proto add f).1, psInv x) ∧
    (∀ us ci r b, (∀ c ∈ us, psInv c) →
      ∀ x ∈ otrl_context_forget_fingerprint us ci r b, psInv x) ∧
    (∀ us i, (∀ c ∈ us, psInv c) →
      ∀ x ∈ otrl_context_forget us i, psInv x) ∧
    (∀ us, ∀ x ∈ otrl_context_forget_all us, psInv x) := by
  refine ⟨?_, ?_, ?_, ?_, ?_, ?_, ?_, ?_, ?_, ?_⟩
  · intro u a p
    simp [psInv, new_context]
  · intro c s n ok
    unfold otrl_context_set_preshared_secret
    split
    · rename_i hn
      split
      · simp [psInv, hn]
      · simp [psInv]
    · simp [psInv]
  · intro c s n
    unfold otrl_context_set_preshared_secret
    split <;> simp
  · intro c
    simp [psInv, otrl_context_force_setup]
  · intro c
    simp [psInv, otrl_context_force_disconnect, otrl_context_force_setup]
  · intro c fpb add h
    unfold otrl_context_find_fingerprint
    cases hm : c.fingerprints.find? (fun f => f.fingerprint = fpb) with
    | some f => exact h
    | none =>
        cases add with
        | true => exact h
        | false => exact h
  · intro us user acct proto add f h x hx
    unfold otrl_context_find at hx
    rcases user with - | u <;> rcases acct with - | a <;>
      rcases proto with - | p
    all_goals
      first
        | exact h x hx
        | (rcases findLoop_mem hx with h1 | h1
           · exact h x h1
           · rw [h1]
             exact psInv_applyAppData_new f u a p)
  · exact forget_fingerprint_psInv
  · intro us i h x hx
    exact h x (forget_mem hx)
  · intro us x hx
    rw [forgetAll_eq_nil] at hx
    simp at hx

/-- Witness for C10: the invariant holds on a concrete context and is kept
by a fingerprint insertion into it. -/
theorem preshared_secret_invariant_witness :
    psInv exConnected ∧
      psInv (otrl_context_find_fingerprint exConnected
        (List.replicate 20 9) true).1 :=
  ⟨by simp [psInv, exConnected, new_context],
    preshared_secret_invariant.2.2.2.2.2.1 exConnected (List.replicate 20 9)
      true (by simp [psInv, exConnected, new_context])⟩
